import Mathlib

/-!
Verification of the stem_app audio-processing scripts
(src/lib/audio_processing/mix_stems.py, simple_separate.py,
separate_audio.py) against their design specification.

Shallow embedding conventions:
* numpy / torch floating-point sample arrays are embedded as lists of
  rationals (`ℚ`); elementwise arithmetic is exact.
* an `AudioBuffer` is a `List (List ℚ)`: for the mixer it is
  frames-major (shape `(frames, channels)`, as `soundfile.read`
  returns); for the separator scripts it is channels-major (shape
  `(channels, samples)`, as librosa / torch use).  All the
  shape-agnostic elementwise operations (peak, normalize, scaling)
  apply to both orientations.
* file decoding (`sf.read`, `librosa.load`) is an external collaborator;
  an input file is embedded as its already-decoded contents.
* Python exceptions in the pipelines are embedded as explicit result
  variants / boolean failure oracles.
-/

namespace StemApp

/-- An audio buffer: a two-dimensional array of samples. -/
abbrev Buffer := List (List ℚ)

/-- Peak amplitude: `np.max(np.abs(x))` over every sample of a buffer
(0 for an empty buffer, where numpy would raise instead; all uses in
the scripts are on nonempty buffers). -/
def peak (b : Buffer) : ℚ :=
  (b.flatten.map (fun x => |x|)).foldr max 0

/-- Elementwise scalar multiple of a buffer (used to state the
normalizer and volume contracts). -/
def scaleFrames (c : ℚ) (b : Buffer) : Buffer :=
  b.map (fun fr => fr.map (fun x => c * x))

/-- Normalizer shared by all three scripts
(mix_stems.py lines 99-102, simple_separate.py lines 114-116,
separate_audio.py lines 161-164):
`max_val = np.max(np.abs(x)); if max_val > 0: x = x / max_val * 0.95`. -/
def normalize (b : Buffer) : Buffer :=
  if 0 < peak b then b.map (fun fr => fr.map (fun x => x / peak b * 0.95)) else b

/- Arithmetic facts about `peak`. -/

theorem foldr_max_nonneg (l : List ℚ) : 0 ≤ l.foldr max 0 := by
  induction l with
  | nil => exact le_refl _
  | cons x t ih => exact le_trans ih (le_max_right x _)

theorem peak_nonneg (b : Buffer) : 0 ≤ peak b :=
  foldr_max_nonneg _

theorem foldr_max_map_mul (c : ℚ) (hc : 0 ≤ c) (l : List ℚ) :
    (l.map (fun x => c * x)).foldr max 0 = c * l.foldr max 0 := by
  induction l with
  | nil => simp
  | cons x t ih =>
    simp only [List.map_cons, List.foldr_cons, ih]
    exact (mul_max_of_nonneg x _ hc).symm

theorem peak_scaleFrames (c : ℚ) (hc : 0 ≤ c) (b : Buffer) :
    peak (scaleFrames c b) = c * peak b := by
  unfold peak scaleFrames
  rw [← List.map_flatten, List.map_map]
  have hfun : ((fun x : ℚ => |x|) ∘ fun x => c * x)
      = (fun x : ℚ => c * x) ∘ (fun x : ℚ => |x|) := by
    funext x
    simp [Function.comp, abs_mul, abs_of_nonneg hc]
  rw [hfun, ← List.map_map]
  exact foldr_max_map_mul c hc _

theorem normalize_of_peak_pos {b : Buffer} (h : 0 < peak b) :
    normalize b = scaleFrames (0.95 / peak b) b := by
  unfold normalize scaleFrames
  rw [if_pos h]
  congr 1
  funext fr
  congr 1
  funext x
  field_simp
  ring

theorem normalize_of_peak_zero {b : Buffer} (h : peak b = 0) :
    normalize b = b := by
  unfold normalize
  rw [if_neg]
  rw [h]
  exact lt_irrefl 0

theorem peak_normalize {b : Buffer} (h : 0 < peak b) :
    peak (normalize b) = 0.95 := by
  rw [normalize_of_peak_pos h,
    peak_scaleFrames _ (le_of_lt (div_pos (by norm_num) h)) b]
  field_simp

/-- C2: for every AudioBuffer given to the Normalizer, if its peak
`max(|sample|)` is positive the whole buffer is rescaled by
`0.95 / peak` (so the output peak is exactly 0.95); if the peak is 0
the buffer passes through unchanged, and no division by zero occurs
(the guard `max_val > 0` is the only path on which the code divides). -/
theorem normalizer_contract (b : Buffer) :
    (0 < peak b →
      normalize b = scaleFrames (0.95 / peak b) b ∧ peak (normalize b) = 0.95)
    ∧ (peak b = 0 → normalize b = b) := by
  constructor
  · intro h
    exact ⟨normalize_of_peak_pos h, peak_normalize h⟩
  · intro h
    exact normalize_of_peak_zero h

/-- Witness for C2: the normalizer contract evaluated on the concrete
buffer `[[1, -2], [0, 1]]` (peak 2) and on the silent buffer `[[0, 0]]`. -/
theorem normalizer_contract_witness :
    (0 < peak [[(1 : ℚ), -2], [0, 1]]
      ∧ peak (normalize [[(1 : ℚ), -2], [0, 1]]) = 0.95)
    ∧ (peak [[(0 : ℚ), 0]] = 0 ∧ normalize [[(0 : ℚ), 0]] = [[0, 0]]) := by
  have h1 : 0 < peak [[(1 : ℚ), -2], [0, 1]] := by decide
  have h2 : peak [[(0 : ℚ), 0]] = 0 := by decide
  exact ⟨⟨h1, ((normalizer_contract _).1 h1).2⟩,
    ⟨h2, (normalizer_contract _).2 h2⟩⟩

/- Mixer combiner (mix_stems.py lines 85-97).  Buffers here are
frames-major: shape (frames, channels). -/

/-- Elementwise sum of two equal-shaped arrays (numpy `+`; on the lists
of the embedding, `zipWith` truncates to the common shape, which
coincides with numpy on the equal shapes the script produces). -/
def addFrames (a b : Buffer) : Buffer :=
  List.zipWith (List.zipWith (fun x y => x + y)) a b

/-- Sum of a list of equal-shaped arrays: `np.sum(padded_data, axis=0)`
(mix_stems.py line 97). -/
def sumBuffers : List Buffer → Buffer
  | [] => []
  | b :: bs => bs.foldl addFrames b

/-- Channel count of a buffer, `data.shape[1]` for the rectangular
nonempty arrays the script handles. -/
def channelsOf (b : Buffer) : Nat := (b.headD []).length

/-- Maximum frame count over the loaded buffers:
`max(d.shape[0] for d in audio_data)` (mix_stems.py line 86). -/
def maxFrames (bufs : List Buffer) : Nat :=
  (bufs.map List.length).foldr max 0

/-- Zero-padding of one buffer to `m` frames (mix_stems.py lines 90-94):
`np.vstack([data, np.zeros((m - frames, channels))])` when the buffer is
shorter than `m`, otherwise the buffer unchanged. -/
def padBuffer (m : Nat) (b : Buffer) : Buffer :=
  if b.length < m then
    b ++ List.replicate (m - b.length) (List.replicate (channelsOf b) 0)
  else b

/-- The Summation Combiner (mix_stems.py lines 85-97): pad every loaded
buffer to the common maximum frame count, then sum elementwise. -/
def summationCombine (bufs : List Buffer) : Buffer :=
  sumBuffers (bufs.map (padBuffer (maxFrames bufs)))

theorem length_le_maxFrames {bufs : List Buffer} {b : Buffer}
    (hb : b ∈ bufs) : b.length ≤ maxFrames bufs := by
  induction bufs with
  | nil => cases hb
  | cons x t ih =>
    rcases List.mem_cons.mp hb with h | h
    · subst h
      exact le_max_left _ _
    · exact le_trans (ih h) (le_max_right _ _)

theorem exists_length_eq_maxFrames {bufs : List Buffer} (hne : bufs ≠ []) :
    ∃ b ∈ bufs, b.length = maxFrames bufs := by
  induction bufs with
  | nil => exact absurd rfl hne
  | cons x t ih =>
    cases t with
    | nil =>
      refine ⟨x, List.mem_cons_self x [], ?_⟩
      simp [maxFrames]
    | cons y s =>
      rcases ih (by simp) with ⟨b, hb, heq⟩
      rcases le_total (maxFrames (y :: s)) x.length with hle | hle
      · refine ⟨x, List.mem_cons_self _ _, ?_⟩
        show x.length = max x.length (maxFrames (y :: s))
        exact (max_eq_left hle).symm
      · refine ⟨b, List.mem_cons_of_mem x hb, ?_⟩
        show b.length = max x.length (maxFrames (y :: s))
        rw [max_eq_right hle, heq]

theorem length_padBuffer {m : Nat} {b : Buffer} (h : b.length ≤ m) :
    (padBuffer m b).length = m := by
  unfold padBuffer
  by_cases hlt : b.length < m
  · rw [if_pos hlt]
    simp [Nat.add_sub_cancel' (le_of_lt hlt)]
  · rw [if_neg hlt]
    omega

theorem length_addFrames (a b : Buffer) :
    (addFrames a b).length = min a.length b.length := by
  unfold addFrames
  exact List.length_zipWith _ _ _

theorem length_foldl_addFrames {m : Nat} (bs : List Buffer) :
    ∀ b : Buffer, b.length = m → (∀ x ∈ bs, x.length = m) →
      (bs.foldl addFrames b).length = m := by
  induction bs with
  | nil =>
    intro b hb _
    exact hb
  | cons y s ih =>
    intro b hb hx
    have hy : y.length = m := hx y (List.mem_cons_self _ _)
    refine ih (addFrames b y) ?_ (fun z hz => hx z (List.mem_cons_of_mem _ hz))
    rw [length_addFrames, hb, hy, min_self]

theorem length_sumBuffers {bufs : List Buffer} {m : Nat} (hne : bufs ≠ [])
    (hlen : ∀ b ∈ bufs, b.length = m) : (sumBuffers bufs).length = m := by
  match bufs with
  | b :: bs =>
    exact length_foldl_addFrames bs b (hlen b (List.mem_cons_self _ _))
      (fun x hx => hlen x (List.mem_cons_of_mem _ hx))

/-- C3: for every nonempty list of (rectangular, nonempty) input
buffers, the Summation Combiner output has frame length equal to the
maximum of the input frame lengths; every shorter input is extended
with trailing zero-valued frames to that length (the original samples
are kept as a prefix), and no input is ever truncated. -/
theorem combiner_pads_to_max (bufs : List Buffer) (c : Nat) (hne : bufs ≠ [])
    (hrect : ∀ b ∈ bufs, b ≠ [] ∧ ∀ fr ∈ b, fr.length = c) :
    (summationCombine bufs).length = maxFrames bufs
    ∧ (∀ b ∈ bufs, b.length ≤ maxFrames bufs)
    ∧ (∃ b ∈ bufs, b.length = maxFrames bufs)
    ∧ ∀ b ∈ bufs,
        padBuffer (maxFrames bufs) b
          = b ++ List.replicate (maxFrames bufs - b.length) (List.replicate c 0)
        ∧ (padBuffer (maxFrames bufs) b).take b.length = b
        ∧ (padBuffer (maxFrames bufs) b).length = maxFrames bufs := by
  refine ⟨?_, fun b hb => length_le_maxFrames hb, exists_length_eq_maxFrames hne, ?_⟩
  · unfold summationCombine
    refine length_sumBuffers ?_ ?_
    · simpa using hne
    · intro b hb
      rcases List.mem_map.mp hb with ⟨b0, hb0, rfl⟩
      exact length_padBuffer (length_le_maxFrames hb0)
  · intro b hb
    have hch : channelsOf b = c := by
      rcases hrect b hb with ⟨hbne, hfr⟩
      cases b with
      | nil => exact absurd rfl hbne
      | cons fr t => exact hfr fr (List.mem_cons_self _ _)
    have hle : b.length ≤ maxFrames bufs := length_le_maxFrames hb
    have hpad : padBuffer (maxFrames bufs) b
        = b ++ List.replicate (maxFrames bufs - b.length) (List.replicate c 0) := by
      unfold padBuffer
      by_cases hlt : b.length < maxFrames bufs
      · rw [if_pos hlt, hch]
      · rw [if_neg hlt]
        have : maxFrames bufs - b.length = 0 := by omega
        simp [this]
    refine ⟨hpad, ?_, length_padBuffer hle⟩
    rw [hpad]
    exact List.take_left b _

/-- Witness for C3: the combiner evaluated on two concrete stereo
buffers of lengths 1 and 3 — the output has 3 frames, the shorter input
is padded with two zero frames and its own samples survive as a prefix. -/
theorem combiner_pads_to_max_witness :
    ([[[(1 : ℚ), 2]], [[3, 4], [5, 6], [7, 8]]] : List Buffer) ≠ []
    ∧ (summationCombine [[[(1 : ℚ), 2]], [[3, 4], [5, 6], [7, 8]]]).length = 3
    ∧ padBuffer 3 [[(1 : ℚ), 2]] = [[1, 2], [0, 0], [0, 0]] := by
  have h := combiner_pads_to_max [[[(1 : ℚ), 2]], [[3, 4], [5, 6], [7, 8]]] 2
    (by decide) (by decide)
  have hmax : maxFrames [[[(1 : ℚ), 2]], [[3, 4], [5, 6], [7, 8]]] = 3 := by decide
  refine ⟨by decide, by rw [h.1, hmax], ?_⟩
  have hp := (h.2.2.2 [[(1 : ℚ), 2]] (by decide)).1
  rw [hmax] at hp
  rw [hp]
  decide

/- Order independence of the Summation Combiner (C5). -/

/-- Per-stem volume scaling: `data = data * volume`
(mix_stems.py line 81). -/
def scaleBuffer (v : ℚ) (b : Buffer) : Buffer :=
  b.map (fun fr => fr.map (fun x => x * v))

theorem zipWith_add_comm (a b : List ℚ) :
    List.zipWith (fun x y => x + y) a b = List.zipWith (fun x y => x + y) b a :=
  List.zipWith_comm_of_comm _ (fun x y => add_comm x y) a b

theorem addFrames_comm (a b : Buffer) : addFrames a b = addFrames b a :=
  List.zipWith_comm_of_comm _ (fun fr1 fr2 => zipWith_add_comm fr1 fr2) a b

theorem zipWith_add_assoc (a b c : List ℚ) :
    List.zipWith (fun x y => x + y) (List.zipWith (fun x y => x + y) a b) c
      = List.zipWith (fun x y => x + y) a (List.zipWith (fun x y => x + y) b c) := by
  induction a generalizing b c with
  | nil => simp
  | cons x t ih =>
    cases b with
    | nil => simp
    | cons y u =>
      cases c with
      | nil => simp
      | cons z v => simp [List.zipWith, ih, add_assoc]

theorem addFrames_assoc (a b c : Buffer) :
    addFrames (addFrames a b) c = addFrames a (addFrames b c) := by
  unfold addFrames
  induction a generalizing b c with
  | nil => simp
  | cons x t ih =>
    cases b with
    | nil => simp
    | cons y u =>
      cases c with
      | nil => simp
      | cons z v => simp [List.zipWith, ih, zipWith_add_assoc]

instance : RightCommutative addFrames :=
  ⟨fun b x y => by
    rw [addFrames_assoc, addFrames_assoc, addFrames_comm x y]⟩

instance : LeftCommutative (max : Nat → Nat → Nat) :=
  ⟨fun a b c => by
    rw [← Nat.max_assoc, Nat.max_comm a b, Nat.max_assoc]⟩

theorem sumBuffers_perm {l1 l2 : List Buffer} (h : l1.Perm l2) :
    sumBuffers l1 = sumBuffers l2 := by
  induction h with
  | nil => rfl
  | cons x h ih =>
    show List.foldl addFrames x _ = List.foldl addFrames x _
    exact h.foldl_eq x
  | swap x y l =>
    show List.foldl addFrames (addFrames y x) l
      = List.foldl addFrames (addFrames x y) l
    rw [addFrames_comm y x]
  | trans h1 h2 ih1 ih2 => exact ih1.trans ih2

theorem maxFrames_perm {l1 l2 : List Buffer} (h : l1.Perm l2) :
    maxFrames l1 = maxFrames l2 :=
  (h.map List.length).foldr_eq 0

/-- C5: the Summation Combiner is order-independent — permuting the
list of (buffer, volume) pairs handed to the mixer (so each buffer
keeps its own volume) leaves the padded elementwise sum unchanged.
Sample arithmetic in the embedding is exact rational arithmetic, under
which elementwise addition is commutative and associative. -/
theorem combiner_order_independent (l1 l2 : List (Buffer × ℚ)) (h : l1.Perm l2) :
    summationCombine (l1.map fun p => scaleBuffer p.2 p.1)
      = summationCombine (l2.map fun p => scaleBuffer p.2 p.1) := by
  have hp : (l1.map fun p => scaleBuffer p.2 p.1).Perm
      (l2.map fun p => scaleBuffer p.2 p.1) := h.map _
  unfold summationCombine
  rw [maxFrames_perm hp]
  exact sumBuffers_perm (hp.map _)

/-- Witness for C5: mixing the scaled buffers [A, B, C] and [C, A, B]
(volumes carried along with their buffers) yields identical output. -/
theorem combiner_order_independent_witness :
    ([([[(1 : ℚ), 2]], (1 : ℚ)), ([[3, 4], [5, 6]], 1/2), ([[0, 1]], 2)].Perm
      [([[(0 : ℚ), 1]], (2 : ℚ)), ([[1, 2]], 1), ([[3, 4], [5, 6]], 1/2)])
    ∧ summationCombine
        (([([[(1 : ℚ), 2]], (1 : ℚ)), ([[3, 4], [5, 6]], 1/2), ([[0, 1]], 2)]).map
          fun p => scaleBuffer p.2 p.1)
      = summationCombine
          (([([[(0 : ℚ), 1]], (2 : ℚ)), ([[1, 2]], 1), ([[3, 4], [5, 6]], 1/2)]).map
            fun p => scaleBuffer p.2 p.1) := by
  have h : ([([[(1 : ℚ), 2]], (1 : ℚ)), ([[3, 4], [5, 6]], 1/2), ([[0, 1]], 2)]).Perm
      [([[(0 : ℚ), 1]], (2 : ℚ)), ([[1, 2]], 1), ([[3, 4], [5, 6]], 1/2)] :=
    ((List.Perm.swap _ _ _).cons _).trans (List.Perm.swap _ _ _)
  exact ⟨h, combiner_order_independent _ _ h⟩

/- The mixer pipeline (mix_stems.py, function mix_stems).  An input
file is embedded as its path together with its already-decoded
contents (`sf.read` is an external codec collaborator); missing-file
failures are an earlier, distinct error path and are outside the
claims about decoded inputs. -/

/-- Raw decoded data of one file: `sf.read` yields a 1-D array for a
mono file and a frames-major 2-D array otherwise. -/
inductive Raw where
  | mono (samples : List ℚ)
  | multi (frames : List (List ℚ))
deriving DecidableEq

/-- Mono-to-stereo upmix in the mixer
(mix_stems.py lines 76-77: `np.stack([data, data], axis=1)`). -/
def toStereoFrames : Raw → Buffer
  | .mono s => s.map (fun x => [x, x])
  | .multi fr => fr

/-- One decoded mixer input. -/
structure MixInput where
  path : String
  sr : Nat
  raw : Raw
deriving DecidableEq

/-- Volume lookup in the loop
(mix_stems.py line 80: `volumes[i] if i < len(volumes) else 1.0`). -/
def volAt (vols : List ℚ) (i : Nat) : ℚ := vols.getD i 1

/-- Volume reconciliation before the loop (mix_stems.py lines 47-51):
a missing vector defaults to all ones, a vector whose length differs
from the input count is right-padded with 1.0 (Python appends
`[1.0] * (len(input_paths) - len(volumes))`, which is empty when the
vector is longer, leaving the longer vector in place). -/
def reconcileVolumes (n : Nat) : Option (List ℚ) → List ℚ
  | none => List.replicate n 1
  | some vs => vs ++ List.replicate (n - vs.length) 1

/-- Outcome of the sequential per-file load loop. -/
inductive LoadOutcome where
  | ok (bufs : List Buffer)
  | mismatch (expected actual : Nat) (path : String)
deriving DecidableEq

/-- The per-file loop of mix_stems.py (lines 57-83): each file is
checked against the first file's sample rate (a differing rate stops
the run with the mismatch data that Python formats into
"Sample rate mismatch: expected .. got .. for .."), then upmixed to
stereo if mono and scaled by its volume. -/
def loadAll (expected : Nat) (vols : List ℚ) : Nat → List MixInput → LoadOutcome
  | _, [] => .ok []
  | i, inp :: rest =>
    if inp.sr = expected then
      match loadAll expected vols (i + 1) rest with
      | .ok bufs => .ok (scaleBuffer (volAt vols i) (toStereoFrames inp.raw) :: bufs)
      | .mismatch e a p => .mismatch e a p
    else .mismatch expected inp.sr inp.path

/-- Terminal result of one mixer run.  The Python function also
returns encoding metadata (output path, duration, stem count) in its
success dictionary; the embedding keeps the mixed buffer and the
sample rate, the parts the claims speak about. -/
inductive MixResult where
  | success (out : Buffer) (sr : Nat)
  | noInputs
  | sampleRateMismatch (expected actual : Nat) (path : String)
deriving DecidableEq

/-- The mix_stems pipeline (mix_stems.py lines 40-135): reconcile the
volume vector, load/check/scale every input, pad to the maximum length,
sum, normalize. -/
def mixStems : List MixInput → Option (List ℚ) → MixResult
  | [], _ => .noInputs
  | first :: rest, volumes =>
    match loadAll first.sr
        (reconcileVolumes (first :: rest).length volumes) 0 (first :: rest) with
    | .mismatch e a p => .sampleRateMismatch e a p
    | .ok bufs => .success (normalize (summationCombine bufs)) first.sr

theorem loadAll_mismatch_of_exists {expected : Nat} {vols : List ℚ}
    {inputs : List MixInput} (i : Nat)
    (hdiff : ∃ inp ∈ inputs, inp.sr ≠ expected) :
    ∃ a p, loadAll expected vols i inputs = .mismatch expected a p
      ∧ a ≠ expected ∧ ∃ inp ∈ inputs, inp.sr = a ∧ inp.path = p := by
  induction inputs generalizing i with
  | nil => simp at hdiff
  | cons inp rest ih =>
    by_cases heq : inp.sr = expected
    · have hrest : ∃ x ∈ rest, x.sr ≠ expected := by
        rcases hdiff with ⟨x, hx, hxne⟩
        rcases List.mem_cons.mp hx with h | h
        · exact absurd (h ▸ heq) hxne
        · exact ⟨x, h, hxne⟩
      rcases ih (i + 1) hrest with ⟨a, p, hres, hane, x, hx, hxa, hxp⟩
      refine ⟨a, p, ?_, hane, x, List.mem_cons_of_mem _ hx, hxa, hxp⟩
      show (if inp.sr = expected then _ else _) = _
      rw [if_pos heq, hres]
    · refine ⟨inp.sr, inp.path, ?_, heq, inp, List.mem_cons_self _ _, rfl, rfl⟩
      show (if inp.sr = expected then _ else _) = _
      rw [if_neg heq]

/-- C4: if the mixer is given two or more decodable input files whose
sample rates are not all equal, it ends with the sample-rate-mismatch
error, carrying the expected rate (the first file's), the differing
actual rate and the offending file's path, and produces no mixed
output (the result is the error variant, not `success`); no resampling
happens in the mixing direction. -/
theorem mixer_rate_mismatch_fails (first : MixInput) (rest : List MixInput)
    (volumes : Option (List ℚ))
    (hdiff : ∃ x ∈ first :: rest, ∃ y ∈ first :: rest, x.sr ≠ y.sr) :
    ∃ a p, mixStems (first :: rest) volumes = .sampleRateMismatch first.sr a p
      ∧ a ≠ first.sr ∧ ∃ inp ∈ first :: rest, inp.sr = a ∧ inp.path = p := by
  have hone : ∃ inp ∈ first :: rest, inp.sr ≠ first.sr := by
    rcases hdiff with ⟨x, hx, y, hy, hxy⟩
    by_cases hxf : x.sr = first.sr
    · exact ⟨y, hy, fun hyf => hxy (hxf.trans hyf.symm)⟩
    · exact ⟨x, hx, hxf⟩
  rcases @loadAll_mismatch_of_exists first.sr
    (reconcileVolumes (first :: rest).length volumes) (first :: rest) 0 hone
    with ⟨a, p, hres, hane, hwit⟩
  refine ⟨a, p, ?_, hane, hwit⟩
  show (match loadAll first.sr
      (reconcileVolumes (first :: rest).length volumes) 0 (first :: rest) with
    | .mismatch e a p => MixResult.sampleRateMismatch e a p
    | .ok bufs => .success (normalize (summationCombine bufs)) first.sr) = _
  rw [hres]

/-- Witness for C4: two concrete files decoded at 44100 Hz and
48000 Hz make the mixer fail with the mismatch error naming 44100,
48000 and the second file's path. -/
theorem mixer_rate_mismatch_fails_witness :
    (∃ x ∈ ([⟨"a.wav", 44100, .mono [1]⟩, ⟨"b.wav", 48000, .mono [2]⟩] : List MixInput),
      ∃ y ∈ ([⟨"a.wav", 44100, .mono [1]⟩, ⟨"b.wav", 48000, .mono [2]⟩] : List MixInput),
        x.sr ≠ y.sr)
    ∧ (∃ a p, mixStems [⟨"a.wav", 44100, .mono [1]⟩, ⟨"b.wav", 48000, .mono [2]⟩] none
          = .sampleRateMismatch 44100 a p
        ∧ a ≠ 44100
        ∧ ∃ inp ∈ ([⟨"a.wav", 44100, .mono [1]⟩, ⟨"b.wav", 48000, .mono [2]⟩] : List MixInput),
            inp.sr = a ∧ inp.path = p)
    ∧ mixStems [⟨"a.wav", 44100, .mono [1]⟩, ⟨"b.wav", 48000, .mono [2]⟩] none
      = .sampleRateMismatch 44100 48000 "b.wav" := by
  have hd : ∃ x ∈ ([⟨"a.wav", 44100, .mono [1]⟩, ⟨"b.wav", 48000, .mono [2]⟩] : List MixInput),
      ∃ y ∈ ([⟨"a.wav", 44100, .mono [1]⟩, ⟨"b.wav", 48000, .mono [2]⟩] : List MixInput),
        x.sr ≠ y.sr := by
    refine ⟨⟨"a.wav", 44100, .mono [1]⟩, by simp,
      ⟨"b.wav", 48000, .mono [2]⟩, by simp, by decide⟩
  exact ⟨hd, mixer_rate_mismatch_fails ⟨"a.wav", 44100, .mono [1]⟩
    [⟨"b.wav", 48000, .mono [2]⟩] none hd, by decide⟩

/- Volume-vector reconciliation (C7). -/

theorem volAt_append_pad (vs : List ℚ) (n j : Nat) :
    volAt (vs ++ List.replicate (n - vs.length) 1) j
      = if j < vs.length then vs.getD j 1 else 1 := by
  unfold volAt
  rw [List.getD_eq_getElem?_getD, List.getElem?_append, List.getD_eq_getElem?_getD]
  by_cases hj : j < vs.length
  · rw [if_pos hj, if_pos hj]
  · rw [if_neg hj, if_neg hj, List.getElem?_replicate]
    by_cases hlt : j - vs.length < n - vs.length
    · rw [if_pos hlt]
      rfl
    · rw [if_neg hlt]
      rfl

theorem loadAll_congr_vols (expected : Nat) (vols1 vols2 : List ℚ)
    (inputs : List MixInput) :
    ∀ i : Nat, (∀ j, j < inputs.length → volAt vols1 (i + j) = volAt vols2 (i + j)) →
      loadAll expected vols1 i inputs = loadAll expected vols2 i inputs := by
  induction inputs with
  | nil =>
    intro i _
    rfl
  | cons inp rest ih =>
    intro i hv
    have h0 : volAt vols1 i = volAt vols2 i := by
      have := hv 0 (by simp)
      simpa using this
    have hrest := ih (i + 1) (fun j hj => by
      have h2 := hv (j + 1) (by simp only [List.length_cons]; omega)
      have e : i + (j + 1) = i + 1 + j := by omega
      rw [e] at h2
      exact h2)
    show (if inp.sr = expected then _ else _) = (if inp.sr = expected then _ else _)
    by_cases heq : inp.sr = expected
    · rw [if_pos heq, if_pos heq, hrest, h0]
    · rw [if_neg heq, if_neg heq]

theorem loadAll_ok_of_same_rate {sr0 : Nat} (vols : List ℚ)
    (inputs : List MixInput) :
    ∀ i : Nat, (∀ inp ∈ inputs, inp.sr = sr0) →
      loadAll sr0 vols i inputs
        = .ok (inputs.mapIdx fun j inp =>
            scaleBuffer (volAt vols (i + j)) (toStereoFrames inp.raw)) := by
  induction inputs with
  | nil =>
    intro i _
    rfl
  | cons inp rest ih =>
    intro i hsr
    have hi : inp.sr = sr0 := hsr inp (List.mem_cons_self _ _)
    have hrest := ih (i + 1) (fun x hx => hsr x (List.mem_cons_of_mem _ hx))
    show (if inp.sr = sr0 then _ else _) = _
    rw [if_pos hi, hrest, List.mapIdx_cons]
    have harith :
        (fun j (x : MixInput) =>
            scaleBuffer (volAt vols (i + 1 + j)) (toStereoFrames x.raw))
          = fun j (x : MixInput) =>
              scaleBuffer (volAt vols (i + (j + 1))) (toStereoFrames x.raw) := by
      funext j x
      have h : i + 1 + j = i + (j + 1) := by omega
      rw [h]
    rw [harith, Nat.add_zero]

/-- C7: the mixer's volume handling.  First conjunct: only the first N
entries of the volume vector matter (two vectors agreeing on their
first N entries produce the same run), so excess entries of a longer
vector are ignored.  Second conjunct: with a uniform sample rate the
load loop succeeds, and buffer i is scaled elementwise by entry i of
the volume vector when the vector reaches index i, and by the 1.0
right-padding otherwise (3 inputs with volumes [0.5] behave as
[0.5, 1.0, 1.0]). -/
theorem mixer_volume_reconciliation (inputs : List MixInput) (vs vs2 : List ℚ)
    (sr0 : Nat) :
    (vs.take inputs.length = vs2.take inputs.length →
      mixStems inputs (some vs) = mixStems inputs (some vs2))
    ∧ ((∀ inp ∈ inputs, inp.sr = sr0) →
      loadAll sr0 (reconcileVolumes inputs.length (some vs)) 0 inputs
        = .ok (inputs.mapIdx fun j inp =>
            scaleBuffer (if j < vs.length then vs.getD j 1 else 1)
              (toStereoFrames inp.raw))) := by
  constructor
  · intro htake
    cases inputs with
    | nil => rfl
    | cons first rest =>
      have hlen : min ((first :: rest).length) vs.length
          = min ((first :: rest).length) vs2.length := by
        have h1 := congrArg List.length htake
        simpa [List.length_take] using h1
      have hv : ∀ j, j < (first :: rest).length →
          volAt (reconcileVolumes (first :: rest).length (some vs)) (0 + j)
            = volAt (reconcileVolumes (first :: rest).length (some vs2)) (0 + j) := by
        intro j hj
        show volAt (vs ++ List.replicate ((first :: rest).length - vs.length) 1) (0 + j)
          = volAt (vs2 ++ List.replicate ((first :: rest).length - vs2.length) 1) (0 + j)
        rw [Nat.zero_add, volAt_append_pad, volAt_append_pad]
        by_cases hjv : j < vs.length
        · have hjv2 : j < vs2.length := by omega
          rw [if_pos hjv, if_pos hjv2]
          have e1 : vs.getD j 1 = (vs.take (first :: rest).length).getD j 1 := by
            rw [List.getD_eq_getElem?_getD, List.getD_eq_getElem?_getD,
              List.getElem?_take, if_pos hj]
          have e2 : vs2.getD j 1 = (vs2.take (first :: rest).length).getD j 1 := by
            rw [List.getD_eq_getElem?_getD, List.getD_eq_getElem?_getD,
              List.getElem?_take, if_pos hj]
          rw [e1, e2, htake]
        · have hjv2 : ¬ j < vs2.length := by omega
          rw [if_neg hjv, if_neg hjv2]
      have hL := loadAll_congr_vols first.sr
        (reconcileVolumes (first :: rest).length (some vs))
        (reconcileVolumes (first :: rest).length (some vs2)) (first :: rest) 0 hv
      show (match loadAll first.sr
          (reconcileVolumes (first :: rest).length (some vs)) 0 (first :: rest) with
        | .mismatch e a p => MixResult.sampleRateMismatch e a p
        | .ok bufs => .success (normalize (summationCombine bufs)) first.sr)
        = (match loadAll first.sr
            (reconcileVolumes (first :: rest).length (some vs2)) 0 (first :: rest) with
          | .mismatch e a p => MixResult.sampleRateMismatch e a p
          | .ok bufs => .success (normalize (summationCombine bufs)) first.sr)
      rw [hL]
  · intro hsr
    rw [loadAll_ok_of_same_rate _ inputs 0 hsr]
    have hfun : (fun j (inp : MixInput) =>
        scaleBuffer (volAt (reconcileVolumes inputs.length (some vs)) (0 + j))
          (toStereoFrames inp.raw))
        = fun j (inp : MixInput) =>
            scaleBuffer (if j < vs.length then vs.getD j 1 else 1)
              (toStereoFrames inp.raw) := by
      funext j inp
      show scaleBuffer
          (volAt (vs ++ List.replicate (inputs.length - vs.length) 1) (0 + j)) _ = _
      rw [Nat.zero_add, volAt_append_pad]
    rw [hfun]

/-- Witness for C7: three equal-rate inputs with volume vector [0.5]
load as if the vector were [0.5, 1.0, 1.0], and appending excess
entries ([0.5, 1, 1, 7, 9] vs [0.5, 1, 1]) changes nothing. -/
theorem mixer_volume_reconciliation_witness :
    (([(0.5 : ℚ), 1, 1, 7, 9].take 3 = ([0.5, 1, 1] : List ℚ).take 3)
      ∧ mixStems [⟨"a", 44100, .mono [1]⟩, ⟨"b", 44100, .mono [2]⟩,
          ⟨"c", 44100, .mono [4]⟩] (some [0.5, 1, 1, 7, 9])
        = mixStems [⟨"a", 44100, .mono [1]⟩, ⟨"b", 44100, .mono [2]⟩,
            ⟨"c", 44100, .mono [4]⟩] (some [0.5, 1, 1]))
    ∧ ((∀ inp ∈ ([⟨"a", 44100, .mono [1]⟩, ⟨"b", 44100, .mono [2]⟩,
          ⟨"c", 44100, .mono [4]⟩] : List MixInput), inp.sr = 44100)
      ∧ loadAll 44100 (reconcileVolumes 3 (some [(0.5 : ℚ)])) 0
          [⟨"a", 44100, .mono [1]⟩, ⟨"b", 44100, .mono [2]⟩, ⟨"c", 44100, .mono [4]⟩]
        = .ok [scaleBuffer 0.5 [[1, 1]], scaleBuffer 1 [[2, 2]], scaleBuffer 1 [[4, 4]]]) := by
  have hsr : ∀ inp ∈ ([⟨"a", 44100, .mono [1]⟩, ⟨"b", 44100, .mono [2]⟩,
      ⟨"c", 44100, .mono [4]⟩] : List MixInput), inp.sr = 44100 := by
    intro inp hinp
    fin_cases hinp <;> rfl
  refine ⟨⟨rfl, (mixer_volume_reconciliation _ [0.5, 1, 1, 7, 9] [0.5, 1, 1]
    44100).1 rfl⟩, hsr, ?_⟩
  have h := (mixer_volume_reconciliation [⟨"a", 44100, .mono [1]⟩,
    ⟨"b", 44100, .mono [2]⟩, ⟨"c", 44100, .mono [4]⟩] [(0.5 : ℚ)] [] 44100).2 hsr
  exact h.trans rfl

/- Separator channel handling (C6).  Buffers on this side are
channels-major: shape (channels, samples). -/

/-- Elementwise sum of the channel rows of a channels-major array. -/
def sumChannels : List (List ℚ) → List ℚ
  | [] => []
  | ch :: rest => rest.foldl (List.zipWith (fun x y => x + y)) ch

/-- Channel mean: `wav.mean(dim=0, keepdim=True)` produces ONE averaged
channel (separate_audio.py line 104). -/
def meanChannels (wav : List (List ℚ)) : List ℚ :=
  (sumChannels wav).map (fun x => x / (wav.length : ℚ))

/-- Channel-count forcing of the Demucs separator (separate_audio.py
lines 98-104): fewer channels than the model requires →
`wav.repeat(model.audio_channels, 1)`, the whole channel stack
concatenated `required` times; more → `wav.mean(dim=0, keepdim=True)`,
a single averaged channel. -/
def forceChannels (required : Nat) (wav : List (List ℚ)) : List (List ℚ) :=
  if wav.length < required then (List.replicate required wav).flatten
  else if required < wav.length then [meanChannels wav]
  else wav

/-- Channel forcing at the top of simple_separation (simple_separate.py
lines 49-54): a 1-D mono array is stacked into two identical channels;
an array with more than two channels is cut to its first two. -/
def simpleForceChannels : Raw → List (List ℚ)
  | .mono s => [s, s]
  | .multi chans => if 2 < chans.length then chans.take 2 else chans

theorem flatten_replicate_singleton (n : Nat) (s : List ℚ) :
    (List.replicate n ([s] : List (List ℚ))).flatten = List.replicate n s := by
  induction n with
  | zero => rfl
  | succ k ih => simp [List.replicate_succ, ih]

/-- Counterexample to C6 as stated: with the model requiring 2 channels
(htdemucs has audio_channels = 2) and a 3-channel input, the code
averages all channels into a single one, so the resulting channel count
is 1, NOT the required 2. -/
theorem channel_forcing_counterexample :
    (forceChannels 2 [[(1 : ℚ)], [2], [3]]).length ≠ 2 := by decide

/-- C6 amended: in the Demucs path a buffer with fewer channels than
required has its channel stack repeated `required` times — which yields
exactly the required count (of identical channels) when the buffer is
mono — and a buffer with more channels than required is averaged into a
single channel, not the required count; in the simple variant a 1-D
mono input is duplicated to two channels and an input with more than
two channels is cut to its first two (not averaged). -/
theorem channel_forcing_amended (required : Nat) (s : List ℚ)
    (wav chans : List (List ℚ))
    (hreq : 0 < required) (hmore : required < wav.length)
    (hch : 2 < chans.length) :
    forceChannels required [s] = List.replicate required s
    ∧ (forceChannels required [s]).length = required
    ∧ forceChannels required wav = [meanChannels wav]
    ∧ (forceChannels required wav).length = 1
    ∧ simpleForceChannels (.multi chans) = chans.take 2
    ∧ ∀ t : List ℚ, simpleForceChannels (.mono t) = [t, t] := by
  have hmono : forceChannels required [s] = List.replicate required s := by
    unfold forceChannels
    by_cases h1 : ([s] : List (List ℚ)).length < required
    · rw [if_pos h1, flatten_replicate_singleton]
    · have : required = 1 := by
        simp only [List.length_cons, List.length_nil] at h1
        omega
      subst this
      rfl
  have hdown : forceChannels required wav = [meanChannels wav] := by
    unfold forceChannels
    rw [if_neg (by omega), if_pos hmore]
  refine ⟨hmono, ?_, hdown, ?_, ?_, fun t => rfl⟩
  · rw [hmono, List.length_replicate]
  · rw [hdown]
    rfl
  · show (if 2 < chans.length then List.take 2 chans else chans) = List.take 2 chans
    rw [if_pos hch]

/-- Witness for the amended C6: required channel count 2, mono buffer
[[5]] duplicated to two identical channels, 3-channel buffer averaged
to one channel. -/
theorem channel_forcing_amended_witness :
    ((0 : Nat) < 2 ∧ (2 : Nat) < ([[(1 : ℚ)], [2], [3]] : List (List ℚ)).length
      ∧ (2 : Nat) < ([[(1 : ℚ)], [2], [6]] : List (List ℚ)).length)
    ∧ forceChannels 2 [[(5 : ℚ)]] = [[5], [5]]
    ∧ forceChannels 2 [[(1 : ℚ)], [2], [3]] = [meanChannels [[(1 : ℚ)], [2], [3]]]
    ∧ simpleForceChannels (.multi [[(1 : ℚ)], [2], [6]]) = [[(1 : ℚ)], [2]] := by
  have h := channel_forcing_amended 2 [(5 : ℚ)] [[(1 : ℚ)], [2], [3]]
    [[(1 : ℚ)], [2], [6]] (by decide) (by decide) (by decide)
  exact ⟨⟨by decide, by decide, by decide⟩, h.1, h.2.2.1, h.2.2.2.2.1⟩

/- The simple separation algorithm (C10). -/

/-- The mock separation of simple_separate.py (function
simple_separation, lines 36-75), channels-major.  With two channels:
vocals = (L+R)/2, accompaniment = (L-R)/2 + 0.3 * vocals, each
duplicated into two identical channels.  Otherwise (a 1-channel 2-D
input): vocals = 0.8 * input, accompaniment = 0.6 * input. -/
def simpleSeparation (audio : Raw) : Buffer × Buffer :=
  let a := simpleForceChannels audio
  if a.length = 2 then
    let lch := a.getD 0 []
    let rch := a.getD 1 []
    let vocals := List.zipWith (fun x y => (x + y) / 2) lch rch
    let side := List.zipWith (fun x y => (x - y) / 2) lch rch
    let acc := List.zipWith (fun x y => x + y) side (vocals.map (fun x => 0.3 * x))
    ([vocals, vocals], [acc, acc])
  else
    (a.map (fun ch => ch.map (fun x => x * 0.8)),
      a.map (fun ch => ch.map (fun x => x * 0.6)))

theorem foldr_max_init (l : List ℚ) (b : ℚ) (hb : 0 ≤ b) :
    l.foldr max b = max (l.foldr max 0) b := by
  induction l with
  | nil => simp [max_eq_right hb]
  | cons x t ih => rw [List.foldr_cons, List.foldr_cons, ih, ← max_assoc]

theorem peak_pair (lch : List ℚ) : peak [lch, lch] = peak [lch] := by
  unfold peak
  simp only [List.flatten_cons, List.flatten_nil, List.append_nil, List.map_append]
  rw [List.foldr_append, foldr_max_init _ _ (foldr_max_nonneg _), max_self]

theorem scaleFrames_scaleFrames (c d : ℚ) (b : Buffer) :
    scaleFrames c (scaleFrames d b) = scaleFrames (c * d) b := by
  simp [scaleFrames, List.map_map, Function.comp, mul_assoc]

theorem simpleSeparation_dual_mono (lch : List ℚ) :
    simpleSeparation (.multi [lch, lch])
      = ([lch, lch],
         [lch.map (fun x => (0.3 : ℚ) * x), lch.map (fun x => (0.3 : ℚ) * x)]) := by
  have hvoc : List.zipWith (fun x y : ℚ => (x + y) / 2) lch lch = lch := by
    rw [List.zipWith_same]
    have hf : (fun a : ℚ => (a + a) / 2) = id := by
      funext x
      show (x + x) / 2 = x
      ring
    rw [hf, List.map_id]
  have hside : List.zipWith (fun x y : ℚ => (x - y) / 2) lch lch
      = lch.map (fun _ => (0 : ℚ)) := by
    rw [List.zipWith_same]
    congr 1
    funext x
    show (x - x) / 2 = 0
    simp
  have hacc : List.zipWith (fun x y : ℚ => x + y) (lch.map fun _ => (0 : ℚ))
      (lch.map fun x => (0.3 : ℚ) * x) = lch.map (fun x => (0.3 : ℚ) * x) := by
    rw [List.zipWith_map, List.zipWith_same]
    congr 1
    funext x
    show 0 + (0.3 : ℚ) * x = (0.3 : ℚ) * x
    rw [zero_add]
  have e : simpleSeparation (.multi [lch, lch])
      = ([List.zipWith (fun x y : ℚ => (x + y) / 2) lch lch,
          List.zipWith (fun x y : ℚ => (x + y) / 2) lch lch],
         [List.zipWith (fun x y : ℚ => x + y)
            (List.zipWith (fun x y : ℚ => (x - y) / 2) lch lch)
            ((List.zipWith (fun x y : ℚ => (x + y) / 2) lch lch).map
              fun x => (0.3 : ℚ) * x),
          List.zipWith (fun x y : ℚ => x + y)
            (List.zipWith (fun x y : ℚ => (x - y) / 2) lch lch)
            ((List.zipWith (fun x y : ℚ => (x + y) / 2) lch lch).map
              fun x => (0.3 : ℚ) * x)]) := rfl
  rw [e, hvoc, hside, hacc]

/-- C10: in the simple separation variant, for every nonzero input with
two identical channels (a mono input is upmixed to exactly that shape),
the accompaniment before normalization is 0.3 times the vocals, and the
per-stem normalization therefore maps both stems to the same
peak-0.95 buffer: the saved vocals and accompaniment are identical. -/
theorem dual_mono_stems_identical (lch : List ℚ) (hnz : 0 < peak [lch]) :
    simpleSeparation (.mono lch) = simpleSeparation (.multi [lch, lch])
    ∧ (simpleSeparation (.multi [lch, lch])).2
        = scaleFrames 0.3 ((simpleSeparation (.multi [lch, lch])).1)
    ∧ normalize ((simpleSeparation (.multi [lch, lch])).1)
        = normalize ((simpleSeparation (.multi [lch, lch])).2) := by
  have hsep := simpleSeparation_dual_mono lch
  have hmono : simpleSeparation (.mono lch) = simpleSeparation (.multi [lch, lch]) := rfl
  have hscale : (simpleSeparation (.multi [lch, lch])).2
      = scaleFrames 0.3 ((simpleSeparation (.multi [lch, lch])).1) := by
    rw [hsep]
    rfl
  refine ⟨hmono, hscale, ?_⟩
  have hp1 : peak ((simpleSeparation (.multi [lch, lch])).1) = peak [lch] := by
    rw [hsep]
    exact peak_pair lch
  have hp1pos : 0 < peak ((simpleSeparation (.multi [lch, lch])).1) := by
    rw [hp1]
    exact hnz
  have hp2 : peak ((simpleSeparation (.multi [lch, lch])).2)
      = (0.3 : ℚ) * peak ((simpleSeparation (.multi [lch, lch])).1) := by
    rw [hscale]
    exact peak_scaleFrames _ (by norm_num) _
  have hp2pos : 0 < peak ((simpleSeparation (.multi [lch, lch])).2) := by
    rw [hp2]
    positivity
  rw [normalize_of_peak_pos hp1pos, normalize_of_peak_pos hp2pos, hp2, hscale,
    scaleFrames_scaleFrames]
  congr 1
  have hne : peak ((simpleSeparation (.multi [lch, lch])).1) ≠ 0 := ne_of_gt hp1pos
  field_simp
  ring

/-- Witness for C10: the concrete dual-mono input with channel
[1, -2]. -/
theorem dual_mono_stems_identical_witness :
    0 < peak [[(1 : ℚ), -2]]
    ∧ normalize ((simpleSeparation (.multi [[(1 : ℚ), -2], [1, -2]])).1)
        = normalize ((simpleSeparation (.multi [[(1 : ℚ), -2], [1, -2]])).2) :=
  ⟨by decide, (dual_mono_stems_identical [1, -2] (by decide)).2.2⟩

/- Per-stem normalization in the separator save loop (C9). -/

/-- The per-stem save loop of the Demucs separator (separate_audio.py
lines 154-171): every stem buffer is normalized with its OWN peak
before being encoded (the subsequent transpose and MP3 encoding are
codec-collaborator work and value-preserving for the samples). -/
def saveStemsNormalize (stems : List (String × Buffer)) : List (String × Buffer) :=
  stems.map (fun p => (p.1, normalize p.2))

theorem saveStemsNormalize_getD {stems : List (String × Buffer)} {k : Nat}
    (hk : k < stems.length) :
    (saveStemsNormalize stems).getD k ("", [])
      = ((stems.getD k ("", [])).1, normalize (stems.getD k ("", [])).2) := by
  unfold saveStemsNormalize
  rw [List.getD_eq_getElem?_getD, List.getElem?_map,
    List.getD_eq_getElem?_getD, List.getElem?_eq_getElem hk]
  rfl

theorem peak_getD_pos_lt {stems : List (String × Buffer)} {k : Nat}
    (h : 0 < peak ((stems.getD k ("", [])).2)) : k < stems.length := by
  by_contra hk
  have hnone : stems[k]? = none := List.getElem?_eq_none (by omega)
  rw [List.getD_eq_getElem?_getD, hnone] at h
  exact absurd h (by decide)

/-- C9: the separator pipeline normalizes each output stem
independently — stem i of the save loop's output is stem i of the
StemSet normalized with its own peak, every nonzero stem comes out at
peak exactly 0.95, and hence any two nonzero stems leave with EQUAL
peaks: the relative loudness between the separated stems is not
preserved in the saved files. -/
theorem stems_normalized_independently (stems : List (String × Buffer)) (i j : Nat)
    (hpi : 0 < peak ((stems.getD i ("", [])).2))
    (hpj : 0 < peak ((stems.getD j ("", [])).2)) :
    (saveStemsNormalize stems).getD i ("", [])
      = ((stems.getD i ("", [])).1, normalize (stems.getD i ("", [])).2)
    ∧ peak ((saveStemsNormalize stems).getD i ("", [])).2 = 0.95
    ∧ peak ((saveStemsNormalize stems).getD i ("", [])).2
        = peak ((saveStemsNormalize stems).getD j ("", [])).2 := by
  have hi := peak_getD_pos_lt hpi
  have hj := peak_getD_pos_lt hpj
  have hgi := saveStemsNormalize_getD hi
  have hgj := saveStemsNormalize_getD hj
  refine ⟨hgi, ?_, ?_⟩
  · rw [hgi]
    exact peak_normalize hpi
  · rw [hgi, hgj]
    show peak (normalize _) = peak (normalize _)
    rw [peak_normalize hpi, peak_normalize hpj]

/-- Witness for C9: two stems whose input peaks differ (1 versus 4)
both leave the save loop at peak 0.95. -/
theorem stems_normalized_independently_witness :
    0 < peak ((([("vocals", [[1]]), ("drums", [[4]])] :
        List (String × Buffer)).getD 0 ("", [])).2)
    ∧ 0 < peak ((([("vocals", [[1]]), ("drums", [[4]])] :
        List (String × Buffer)).getD 1 ("", [])).2)
    ∧ peak ((saveStemsNormalize
        [("vocals", [[1]]), ("drums", [[4]])]).getD 0 ("", [])).2
      = peak ((saveStemsNormalize
          [("vocals", [[1]]), ("drums", [[4]])]).getD 1 ("", [])).2 :=
  ⟨by decide, by decide,
    (stems_normalized_independently [("vocals", [[1]]), ("drums", [[4]])] 0 1
      (by decide) (by decide)).2.2⟩

/- Subtractive Recombination (C1). -/

/-- Modelled from the spec: the Subtractive Recombination combiner of
the separation direction (spec sections 4.4 and 8) belongs to a
separator variant that is not part of this source snapshot — the
Demucs variant present here (separate_audio.py lines 124-171) saves the
four stems individually and never recombines them.  Per the spec: given
a StemSet and a designated solo stem name, output = sum of all buffers
in the StemSet except the solo stem; if the solo name is absent, the
first stem is treated as solo and the rest are summed. -/
def subtractiveRecombine (stems : List (String × Buffer)) (solo : String) : Buffer :=
  let soloName := if stems.any (fun p => p.1 == solo) then solo
    else (stems.headD ("", [])).1
  sumBuffers ((stems.filter (fun p => p.1 != soloName)).map (fun p => p.2))

/-- Modelled from the spec: the accompaniment file written by the
recombining separator variant — the recombined buffer, normalized to
peak 0.95 like every stem before encoding (spec sections 4.5 and 8). -/
def accompanimentOutput (stems : List (String × Buffer)) (solo : String) : Buffer :=
  normalize (subtractiveRecombine stems solo)

/-- C1: for a separation run producing the stems drums, bass, other,
vocals (the htdemucs stem order of separate_audio.py line 127) with
solo stem "vocals", the recombined accompaniment is the elementwise sum
of the drums, bass and other buffers — every stem except the solo
one — and the encoded accompaniment output is that sum normalized,
reaching peak exactly 0.95 whenever the sum is nonzero. -/
theorem accompaniment_is_sum_of_non_solo (d b o v : Buffer) :
    subtractiveRecombine
        [("drums", d), ("bass", b), ("other", o), ("vocals", v)] "vocals"
      = addFrames (addFrames d b) o
    ∧ accompanimentOutput
        [("drums", d), ("bass", b), ("other", o), ("vocals", v)] "vocals"
      = normalize (addFrames (addFrames d b) o)
    ∧ (0 < peak (addFrames (addFrames d b) o) →
        peak (accompanimentOutput
          [("drums", d), ("bass", b), ("other", o), ("vocals", v)] "vocals")
          = 0.95) := by
  have h1 : subtractiveRecombine
      [("drums", d), ("bass", b), ("other", o), ("vocals", v)] "vocals"
      = addFrames (addFrames d b) o := rfl
  have h2 : accompanimentOutput
      [("drums", d), ("bass", b), ("other", o), ("vocals", v)] "vocals"
      = normalize (addFrames (addFrames d b) o) := by
    unfold accompanimentOutput
    rw [h1]
  refine ⟨h1, h2, fun hpos => ?_⟩
  rw [h2]
  exact peak_normalize hpos

/-- Witness for C1: concrete one-frame stems drums [[1]], bass [[2]],
other [[3]], vocals [[9]] — the accompaniment is the normalization of
[[6]] and its peak is 0.95. -/
theorem accompaniment_is_sum_of_non_solo_witness :
    0 < peak (addFrames (addFrames [[(1 : ℚ)]] [[2]]) [[3]])
    ∧ peak (accompanimentOutput
        [("drums", [[(1 : ℚ)]]), ("bass", [[2]]), ("other", [[3]]),
          ("vocals", [[9]])] "vocals") = 0.95 := by
  have hsum : addFrames (addFrames [[(1 : ℚ)]] [[2]]) [[3]] = [[6]] := by
    norm_num [addFrames]
  have hpos : 0 < peak (addFrames (addFrames [[(1 : ℚ)]] [[2]]) [[3]]) := by
    rw [hsum]
    decide
  exact ⟨hpos,
    (accompaniment_is_sum_of_non_solo [[(1 : ℚ)]] [[2]] [[3]] [[9]]).2.2 hpos⟩

/- Progress reporting (C8). -/

/-- Failure oracle for one Demucs separator run: which fallible step
(directory creation, model loading, audio loading/resampling, model
inference, stem encoding) raises first, if any.  A raised exception is
caught by the function's top-level handler, which returns the error
result, so the progress stream is truncated at the failing step. -/
structure SepEnv where
  makedirsOk : Bool
  modelLoadOk : Bool
  audioLoadOk : Bool
  inferenceOk : Bool
  saveOk : Bool
deriving DecidableEq

/-- Progress percents printed by one run of the Demucs separator
(separate_audio.py, function separate_audio, lines 53-191), paired with
whether the run reaches the success result.  The percent literals are
the update_progress calls of the script in program order (0, 10, the
device-selection 12, 20, 30, 70, 80, 100); the free-text messages are
elided, the claim being about percents only. -/
def demucsRun (env : SepEnv) : List Nat × Bool :=
  if !env.makedirsOk then ([0], false)
  else if !env.modelLoadOk then ([0, 10, 12], false)
  else if !env.audioLoadOk then ([0, 10, 12, 20], false)
  else if !env.inferenceOk then ([0, 10, 12, 20, 30], false)
  else if !env.saveOk then ([0, 10, 12, 20, 30, 70, 80], false)
  else ([0, 10, 12, 20, 30, 70, 80, 100], true)

/-- Failure oracle for one run of the simple separator. -/
structure SimpleSepEnv where
  makedirsOk : Bool
  audioLoadOk : Bool
  saveOk : Bool
deriving DecidableEq

/-- Progress percents printed by one run of the simple separator
(simple_separate.py, function separate_audio, lines 89-162): the
update_progress calls 0, 20, 40, 50, 60, 80, 100 in program order,
truncated at the first failing step. -/
def simpleRun (env : SimpleSepEnv) : List Nat × Bool :=
  if !env.makedirsOk then ([0], false)
  else if !env.audioLoadOk then ([0, 20], false)
  else if !env.saveOk then ([0, 20, 40, 50, 60, 80], false)
  else ([0, 20, 40, 50, 60, 80, 100], true)

/-- Executable check that a percent stream never decreases. -/
def nondecreasing : List Nat → Bool
  | [] => true
  | [_] => true
  | a :: b :: t => Nat.ble a b && nondecreasing (b :: t)

/-- Counterexample to C8 as stated: in the run where model loading
fails, the separator emits the progress events 0, 10, 12 and then the
terminal error result — the final progress event before the terminal
result has percent 12, not 100. -/
theorem separator_final_progress_counterexample :
    (demucsRun ⟨true, false, true, true, true⟩).1 = [0, 10, 12]
    ∧ (demucsRun ⟨true, false, true, true, true⟩).1.getLast? ≠ some 100
    ∧ (demucsRun ⟨true, false, true, true, true⟩).2 = false := by decide

/-- C8 amended: in every run of either separator pipeline the emitted
progress percents are non-decreasing and start at 0, and in every run
that reaches the success result the final progress event before the
terminal result has percent 100 (a failing run ends its stream at the
failing step, below 100). -/
theorem separator_progress_contract (env : SepEnv) (env2 : SimpleSepEnv) :
    (nondecreasing (demucsRun env).1 = true
      ∧ (demucsRun env).1.head? = some 0
      ∧ ((demucsRun env).2 = true → (demucsRun env).1.getLast? = some 100))
    ∧ (nondecreasing (simpleRun env2).1 = true
      ∧ (simpleRun env2).1.head? = some 0
      ∧ ((simpleRun env2).2 = true → (simpleRun env2).1.getLast? = some 100)) := by
  rcases env with ⟨a, b, c, d, e⟩
  rcases env2 with ⟨x, y, z⟩
  cases a <;> cases b <;> cases c <;> cases d <;> cases e <;>
    cases x <;> cases y <;> cases z <;> decide

/-- Witness for the amended C8: the fully successful runs end at
percent 100. -/
theorem separator_progress_contract_witness :
    (demucsRun ⟨true, true, true, true, true⟩).2 = true
    ∧ (demucsRun ⟨true, true, true, true, true⟩).1.getLast? = some 100
    ∧ (simpleRun ⟨true, true, true⟩).2 = true
    ∧ (simpleRun ⟨true, true, true⟩).1.getLast? = some 100 :=
  ⟨rfl,
    ((separator_progress_contract ⟨true, true, true, true, true⟩
      ⟨true, true, true⟩).1).2.2 rfl,
    rfl,
    ((separator_progress_contract ⟨true, true, true, true, true⟩
      ⟨true, true, true⟩).2).2.2 rfl⟩

end StemApp
